import Mathlib

/-!
Shallow embedding of the `accept` package of go-mime (`v1/accept/accept.go`):
RFC 7231 media-type parsing and Accept-header content negotiation.

Strings are modeled as `List Char`, scanned byte-by-byte exactly as the Go
code scans its (ASCII) header strings; character classes are expressed as
predicates on the character code `Char.toNat`, mirroring the byte-range
checks of the source.  Fallible Go functions returning a `consumed`/`ok`
flag are modeled with `Option`; functions returning a Go `error` are
modeled with `Except Err`.  Loops that do not structurally recurse on the
string are given an explicit fuel argument; every iteration of each such
Go loop consumes at least one character of the remaining input, so fuel
`s.length + 1` is never exhausted at the call sites used below.
-/

abbrev Str := List Char

/-- `type Parameters = map[string]string`, modeled as an association list
with unique keys (inserts replace existing keys, as map assignment does). -/
abbrev Parameters := List (Str × Str)

/-- `type MediaType struct { Type, Subtype string; Parameters Parameters }`.
Go's `Type` field is renamed `type` (lowercased) because `Type` is reserved
in Lean. -/
structure MediaType where
  type : Str
  subtype : Str
  parameters : Parameters
deriving DecidableEq, Inhabited

/-- The package's sentinel error values, as a closed enumeration. -/
inductive Err where
  | InvalidMediaType
  | InvalidMediaRange
  | InvalidParameter
  | InvalidExtensionParameter
  | NoAcceptableTypeFound
  | NoAvailableTypeGiven
  | InvalidWeight
deriving DecidableEq

/-- `isWhiteSpaceChar`: HTAB or SP (RFC 7230, 3.2.3). -/
def isWhiteSpaceChar (c : Char) : Bool :=
  decide (c.toNat = 0x09 ∨ c.toNat = 0x20)

/-- `isDigitChar`: 0x30..0x39 (RFC 5234, Appendix B.1). -/
def isDigitChar (c : Char) : Bool :=
  decide (0x30 ≤ c.toNat ∧ c.toNat ≤ 0x39)

/-- `isAlphaChar`: 0x41..0x5A or 0x61..0x7A (RFC 5234, Appendix B.1). -/
def isAlphaChar (c : Char) : Bool :=
  decide ((0x41 ≤ c.toNat ∧ c.toNat ≤ 0x5A) ∨ (0x61 ≤ c.toNat ∧ c.toNat ≤ 0x7A))

/-- `isTokenChar` (RFC 7230, 3.2.6): the literal characters
! # $ % & ' * + - . ^ _ ` | ~ (codes 0x21 0x23 0x24 0x25 0x26 0x27 0x2A
0x2B 0x2D 0x2E 0x5E 0x5F 0x60 0x7C 0x7E), digits and letters. -/
def isTokenChar (c : Char) : Bool :=
  decide (c.toNat = 0x21 ∨ c.toNat = 0x23 ∨ c.toNat = 0x24 ∨ c.toNat = 0x25 ∨
    c.toNat = 0x26 ∨ c.toNat = 0x27 ∨ c.toNat = 0x2A ∨ c.toNat = 0x2B ∨
    c.toNat = 0x2D ∨ c.toNat = 0x2E ∨ c.toNat = 0x5E ∨ c.toNat = 0x5F ∨
    c.toNat = 0x60 ∨ c.toNat = 0x7C ∨ c.toNat = 0x7E) ||
  isDigitChar c || isAlphaChar c

/-- `isVisibleChar`: 0x21..0x7E (RFC 5234, Appendix B.1). -/
def isVisibleChar (c : Char) : Bool :=
  decide (0x21 ≤ c.toNat ∧ c.toNat ≤ 0x7E)

/-- `isObsoleteTextChar`: 0x80..0xFF (RFC 7230, 3.2.6). -/
def isObsoleteTextChar (c : Char) : Bool :=
  decide (0x80 ≤ c.toNat ∧ c.toNat ≤ 0xFF)

/-- `isQuotedTextChar` (RFC 7230, 3.2.6). -/
def isQuotedTextChar (c : Char) : Bool :=
  decide (c.toNat = 0x09 ∨ c.toNat = 0x20 ∨ c.toNat = 0x21 ∨
    (0x23 ≤ c.toNat ∧ c.toNat ≤ 0x5B) ∨ (0x5D ≤ c.toNat ∧ c.toNat ≤ 0x7E)) ||
  isObsoleteTextChar c

/-- `isQuotedPairChar` (RFC 7230, 3.2.6). -/
def isQuotedPairChar (c : Char) : Bool :=
  decide (c.toNat = 0x09 ∨ c.toNat = 0x20) || isVisibleChar c || isObsoleteTextChar c

/-- ASCII lowercasing of one character, as `strings.ToLower` acts on the
ASCII inputs scanned here. -/
def toLowerChar (c : Char) : Char :=
  if 0x41 ≤ c.toNat ∧ c.toNat ≤ 0x5A then Char.ofNat (c.toNat + 0x20) else c

/-- `strings.ToLower` on the ASCII strings scanned here (characterwise). -/
def toLower (s : Str) : Str := s.map toLowerChar

/-- Uppercase ASCII letter test (used only to state the amended round-trip
property: these are exactly the characters `toLowerChar` changes). -/
def isUpperAlphaChar (c : Char) : Bool :=
  decide (0x41 ≤ c.toNat ∧ c.toNat ≤ 0x5A)

/-- `skipWhiteSpaces`: drop leading HTAB/SP, return the rest unchanged. -/
def skipWhiteSpaces : Str → Str
  | [] => []
  | c :: rest => if isWhiteSpaceChar c then skipWhiteSpaces rest else c :: rest

/-- `consumeToken`: the maximal token-character prefix, lowercased, plus the
remainder; `none` when zero characters were consumed. -/
def consumeToken (s : Str) : Option (Str × Str) :=
  let tok := s.takeWhile isTokenChar
  if tok = [] then none else some (toLower tok, s.dropWhile isTokenChar)

/-- Scanning core of `consumeQuotedString`: consume quoted-text characters
and backslash escapes until a non-quoted-text, non-backslash character;
`none` exactly when a backslash is followed by end of input or by a
character that is not a quoted-pair character. -/
def consumeQuotedStringAux : Str → Option (Str × Str)
  | [] => some ([], [])
  | '\\' :: rest =>
    match rest with
    | [] => none
    | c :: rest2 =>
      if isQuotedPairChar c then
        match consumeQuotedStringAux rest2 with
        | none => none
        | some (acc, rem) => some (c :: acc, rem)
      else none
  | c :: rest =>
    if isQuotedTextChar c then
      match consumeQuotedStringAux rest with
      | none => none
      | some (acc, rem) => some (c :: acc, rem)
    else some ([], c :: rest)

/-- `consumeQuotedString`: the unescaped content (lowercased) plus the
remainder; the surrounding double quotes are not consumed. -/
def consumeQuotedString (s : Str) : Option (Str × Str) :=
  match consumeQuotedStringAux s with
  | none => none
  | some (acc, rem) => some (toLower acc, rem)

/-- `consumeType`: skip whitespace, token, `/`, token; reject `*` type with
a non-`*` subtype; skip trailing whitespace. Returns (type, subtype, rest). -/
def consumeType (s : Str) : Option (Str × Str × Str) :=
  match consumeToken (skipWhiteSpaces s) with
  | none => none
  | some (t, s1) =>
    match s1 with
    | '/' :: s2 =>
      match consumeToken s2 with
      | none => none
      | some (subt, s3) =>
        if t = "*".toList ∧ subt ≠ "*".toList then none
        else some (t, subt, skipWhiteSpaces s3)
    | _ => none

/-- `consumeParameter`: skip whitespace, token key, `=`, then a
double-quoted string (with closing quote required) or a bare token value;
skip trailing whitespace. Returns (key, value, rest). -/
def consumeParameter (s : Str) : Option (Str × Str × Str) :=
  match consumeToken (skipWhiteSpaces s) with
  | none => none
  | some (key, s1) =>
    match s1 with
    | '=' :: s2 =>
      match s2 with
      | '"' :: s3 =>
        match consumeQuotedString s3 with
        | none => none
        | some (value, s4) =>
          match s4 with
          | '"' :: s5 => some (key, value, skipWhiteSpaces s5)
          | _ => none
      | _ =>
        match consumeToken s2 with
        | none => none
        | some (value, s3) => some (key, value, skipWhiteSpaces s3)
    | _ => none

/-- Digit loop of `getWeight` (indices 2.. of the input): each character
must be a digit, and must be `0` when the leading character was `1`. -/
def getWeightLoop : Str → Char → Nat → Nat → Nat × Bool
  | [], _, _, result => (result, true)
  | c :: rest, c0, multiplier, result =>
    if (c0 = '1' ∧ c ≠ '0') ∨ c.toNat < 0x30 ∨ 0x39 < c.toNat then (0, false)
    else getWeightLoop rest c0 (multiplier / 10) (result + (c.toNat - 0x30) * multiplier)

/-- `getWeight` (RFC 7231, 5.3.1): quality value string to fixed-point
integer in [0,1000]; at most 5 characters, first `0` or `1` scaled by 1000,
second (if any) `.`, then digits with the 1.000 cap. -/
def getWeight (s : Str) : Nat × Bool :=
  if 5 < s.length then (0, false)
  else
    match s with
    | [] => (0, true)
    | c0 :: rest =>
      if c0 ≠ '0' ∧ c0 ≠ '1' then (0, false)
      else
        match rest with
        | [] => ((c0.toNat - 0x30) * 1000, true)
        | c1 :: rest2 =>
          if c1 ≠ '.' then (0, false)
          else getWeightLoop rest2 c0 100 ((c0.toNat - 0x30) * 1000)

/-- Map lookup on the association-list representation of `Parameters`. -/
def lookupParam : Parameters → Str → Option Str
  | [], _ => none
  | kv :: rest, key => if kv.1 = key then some kv.2 else lookupParam rest key

/-- Map assignment `m[key] = value` on the association-list representation:
replaces the value when the key exists, appends otherwise. -/
def insertParam (ps : Parameters) (key value : Str) : Parameters :=
  if ps.any (fun kv => decide (kv.1 = key)) then
    ps.map (fun kv => if kv.1 = key then (key, value) else kv)
  else ps ++ [(key, value)]

/-- `compareMediaTypes`: the Accept range `checkMediaType` matches
`mediaType` iff type and subtype agree (or are `*` in the range) and every
range parameter is present in `mediaType` with the identical value. -/
def compareMediaTypes (checkMediaType mediaType : MediaType) : Bool :=
  if (checkMediaType.type = "*".toList ∨ checkMediaType.type = mediaType.type) ∧
      (checkMediaType.subtype = "*".toList ∨ checkMediaType.subtype = mediaType.subtype) then
    checkMediaType.parameters.all fun kv =>
      match lookupParam mediaType.parameters kv.1 with
      | some value => decide (value = kv.2)
      | none => false
  else false

/-- `getPrecedence`: the new range `checkMediaType` outranks the stored
`mediaType` iff the stored one is unset, has a wildcard where the new one
is concrete, or has strictly fewer parameters. -/
def getPrecedence (checkMediaType mediaType : MediaType) : Bool :=
  if mediaType.type.length = 0 ∨ mediaType.subtype.length = 0 then true
  else if (mediaType.type = "*".toList ∧ checkMediaType.type ≠ "*".toList) ∨
      (mediaType.subtype = "*".toList ∧ checkMediaType.subtype ≠ "*".toList) ∨
      mediaType.parameters.length < checkMediaType.parameters.length then true
  else false

/-- The `;parameter` loop shared by `NewMediaType` and `ParseMediaType`
(the two Go loops are textually identical and differ only in how the
caller maps failure). `none` on a malformed parameter. -/
def paramsLoop : Nat → Str → Parameters → Option (Parameters × Str)
  | 0, _, _ => none
  | fuel + 1, s, ps =>
    match s with
    | ';' :: rest =>
      match consumeParameter rest with
      | none => none
      | some (key, value, rem) => paramsLoop fuel rem (insertParam ps key value)
    | _ => some (ps, s)

/-- `NewMediaType`: parse a standalone media-type string. Any failure
yields the zero `MediaType`; input left over after the parameters is
silently ignored. -/
def NewMediaType (s : Str) : MediaType :=
  match consumeType s with
  | none => default
  | some (t, subt, s1) =>
    match paramsLoop (s1.length + 1) s1 [] with
    | none => default
    | some (ps, _) => ⟨t, subt, ps⟩

/-- `MediaType.String`: render `type/subtype` (when either is non-empty)
followed by `;key=value` for each parameter. -/
def MediaType.String (mediaType : MediaType) : Str :=
  (if 0 < mediaType.type.length ∨ 0 < mediaType.subtype.length then
    mediaType.type ++ '/' :: mediaType.subtype
  else []) ++
  mediaType.parameters.foldl (fun acc kv => acc ++ ';' :: (kv.1 ++ '=' :: kv.2)) []

/-- `ParseMediaType`: parse the Content-Type header value (`none` models an
absent header). Unlike `NewMediaType` this reports errors, and rejects any
input left over after the parameters. -/
def ParseMediaType (contentTypeHeader : Option Str) : Except Err MediaType :=
  match contentTypeHeader with
  | none => .ok default
  | some s =>
    match consumeType s with
    | none => .error Err.InvalidMediaType
    | some (t, subt, s1) =>
      match paramsLoop (s1.length + 1) s1 [] with
      | none => .error Err.InvalidParameter
      | some (ps, s2) =>
        match s2 with
        | _ :: _ => .error Err.InvalidMediaType
        | [] => .ok ⟨t, subt, ps⟩

/-- One entry of the `weights` scoring array of `MatchAcceptableMediaType`. -/
structure ScoringSlot where
  mediaType : MediaType
  extensionParameters : Parameters
  weight : Nat
  order : Nat
deriving DecidableEq, Inhabited

/-- The scoring array's initial state: one zero-valued slot per available
media type. -/
def initSlots (availableMediaTypes : List MediaType) : List ScoringSlot :=
  availableMediaTypes.map fun _ => default

/-- The per-slot body of the scoring loop: overwrite the slot exactly when
the range matches the available type and outranks the stored best match. -/
def updateSlot (range : MediaType) (ext : Parameters) (weight order : Nat)
    (available : MediaType) (slot : ScoringSlot) : ScoringSlot :=
  if compareMediaTypes range available && getPrecedence range slot.mediaType then
    ⟨range, ext, weight, order⟩
  else slot

/-- The scoring loop over all available media types (index-aligned slots). -/
def updateSlots (range : MediaType) (ext : Parameters) (weight order : Nat)
    (availableMediaTypes : List MediaType) (slots : List ScoringSlot) : List ScoringSlot :=
  List.zipWith (updateSlot range ext weight order) availableMediaTypes slots

/-- The media-type-parameter loop of the Accept negotiation: ordinary
parameters accumulate until the first `q` parameter, whose value is parsed
as the weight (`InvalidWeight` on failure) and ends the loop. Returns the
parameters, the weight (`none` when no `q` was seen; the caller defaults it
to 1000) and the remainder. -/
def acceptParams : Nat → Str → Parameters → Except Err (Parameters × Option Nat × Str)
  | 0, s, ps => .ok (ps, none, s)
  | fuel + 1, s, ps =>
    match s with
    | ';' :: rest =>
      match consumeParameter rest with
      | none => .error Err.InvalidParameter
      | some (key, value, rem) =>
        if key = "q".toList then
          match getWeight value with
          | (w, true) => .ok (ps, some w, rem)
          | (_, false) => .error Err.InvalidWeight
        else acceptParams fuel rem (insertParam ps key value)
    | _ => .ok (ps, none, s)

/-- The Accept-extension-parameter loop (parameters after `q`). -/
def extParams : Nat → Str → Parameters → Except Err (Parameters × Str)
  | 0, s, ps => .ok (ps, s)
  | fuel + 1, s, ps =>
    match s with
    | ';' :: rest =>
      match consumeParameter rest with
      | none => .error Err.InvalidParameter
      | some (key, value, rem) => extParams fuel rem (insertParam ps key value)
    | _ => .ok (ps, s)

/-- The main negotiation loop of `MatchAcceptableMediaType` over the Accept
header: every range after the first must follow a comma (a missing comma
breaks out with the remainder intact), then one media range with its
parameters, weight and extension parameters is parsed and scored against
every slot; `count` is the 0-based declaration order. Returns the final
scoring array and the unconsumed remainder. -/
def negotiateLoop (availableMediaTypes : List MediaType) :
    Nat → Str → Nat → List ScoringSlot → Except Err (List ScoringSlot × Str)
  | 0, s, _, slots => .ok (slots, s)
  | fuel + 1, s, count, slots =>
    match s with
    | [] => .ok (slots, [])
    | c :: rest =>
      if 0 < count ∧ c ≠ ',' then .ok (slots, c :: rest)
      else
        let s1 := if 0 < count then rest else c :: rest
        match consumeType s1 with
        | none => .error Err.InvalidMediaType
        | some (t, subt, s2) =>
          match acceptParams (s2.length + 1) s2 [] with
          | .error e => .error e
          | .ok (ps, qw, s3) =>
            match extParams (s3.length + 1) s3 [] with
            | .error e => .error e
            | .ok (ext, s4) =>
              negotiateLoop availableMediaTypes fuel (skipWhiteSpaces s4) (count + 1)
                (updateSlots ⟨t, subt, ps⟩ ext (qw.getD 1000) count availableMediaTypes slots)

/-- The winner-selection loop of `MatchAcceptableMediaType`: scan the slots
left to right carrying the current result index (and its slot); a slot is
first picked only if its weight is positive, and a later slot replaces the
current pick iff it has strictly greater weight or equal weight and
strictly smaller declaration order. -/
def selectFrom : List ScoringSlot → Nat → Option (Nat × ScoringSlot) → Option (Nat × ScoringSlot)
  | [], _, best => best
  | w :: rest, i, best =>
    match best with
    | some (bi, bs) =>
      if bs.weight < w.weight ∨ (w.weight = bs.weight ∧ w.order < bs.order) then
        selectFrom rest (i + 1) (some (i, w))
      else
        selectFrom rest (i + 1) (some (bi, bs))
    | none =>
      if 0 < w.weight then selectFrom rest (i + 1) (some (i, w))
      else selectFrom rest (i + 1) none

/-- `MatchAcceptableMediaType`: choose a media type from the available ones
according to the Accept header (`none` models an absent header). -/
def MatchAcceptableMediaType (acceptHeader : Option Str)
    (availableMediaTypes : List MediaType) : Except Err (MediaType × Parameters) :=
  if availableMediaTypes = [] then .error Err.NoAvailableTypeGiven
  else
    match acceptHeader with
    | none => .ok (availableMediaTypes.headD default, [])
    | some s =>
      match negotiateLoop availableMediaTypes (s.length + 1) s 0 (initSlots availableMediaTypes) with
      | .error e => .error e
      | .ok (slots, rem) =>
        match rem with
        | _ :: _ => .error Err.InvalidMediaRange
        | [] =>
          match selectFrom slots 0 none with
          | none => .error Err.NoAcceptableTypeFound
          | some (ri, rs) =>
            .ok (availableMediaTypes.getD ri default, rs.extensionParameters)

/-- The available media type `text/html`. -/
def mtTextHtml : MediaType := ⟨"text".toList, "html".toList, []⟩

/-- The available media type `application/json`. -/
def mtApplicationJson : MediaType := ⟨"application".toList, "json".toList, []⟩

/-- The available media type `text/plain`. -/
def mtTextPlain : MediaType := ⟨"text".toList, "plain".toList, []⟩

/-- C1 (counterexample): with available types `[text/html, application/json]`
and header `application/json;q=0.9, text/html;q=0.9`, the negotiation
succeeds but returns `application/json`, not `text/html` as the claim
states: both ranges score weight 900, and the tie-break picks the slot
whose stored declaration order is lowest, which is the earlier-declared
`application/json` (order 0), not `text/html` (order 1). -/
theorem equalWeight_tie_counterexample :
    MatchAcceptableMediaType (some "application/json;q=0.9, text/html;q=0.9".toList)
      [mtTextHtml, mtApplicationJson] = .ok (mtApplicationJson, []) ∧
    mtApplicationJson ≠ mtTextHtml :=
  ⟨rfl, by decide⟩

/-- C1 (amended): with available types `[text/html, application/json]` and
header `application/json;q=0.9, text/html;q=0.9`, the call succeeds and
returns `application/json`: with equal weights the tie is broken by the
earlier declaration order in the Accept header, and `application/json` is
the earlier-declared range. -/
theorem equalWeight_tie_earlier_declared_wins :
    MatchAcceptableMediaType (some "application/json;q=0.9, text/html;q=0.9".toList)
      [mtTextHtml, mtApplicationJson] = .ok (mtApplicationJson, []) := rfl

/-- C5: `getWeight` maps quality-value strings to fixed-point integers as
specified: `"1"`, `"1.0"`, `"1.000"` give 1000, `"0"` gives 0, `"0.5"`
gives 500, and `"1.001"`, `"abc"`, `"0.12345"` all fail. -/
theorem getWeight_values :
    getWeight "1".toList = (1000, true) ∧
    getWeight "1.0".toList = (1000, true) ∧
    getWeight "1.000".toList = (1000, true) ∧
    getWeight "0".toList = (0, true) ∧
    getWeight "0.5".toList = (500, true) ∧
    getWeight "1.001".toList = (0, false) ∧
    getWeight "abc".toList = (0, false) ∧
    getWeight "0.12345".toList = (0, false) := by
  decide

/-- C7: with a non-empty available-types list and no Accept header at all,
`MatchAcceptableMediaType` succeeds immediately with the first available
media type and an empty extension-parameters mapping (the negotiation loop
is never entered). -/
theorem matchAcceptable_no_header (availableMediaTypes : List MediaType)
    (h : availableMediaTypes ≠ []) :
    MatchAcceptableMediaType none availableMediaTypes =
      .ok (availableMediaTypes.headD default, []) := by
  unfold MatchAcceptableMediaType
  rw [if_neg h]

/-- C7 (witness): the no-header case at the concrete list `[text/html]`. -/
theorem matchAcceptable_no_header_witness :
    MatchAcceptableMediaType none [mtTextHtml] = .ok (mtTextHtml, []) :=
  matchAcceptable_no_header [mtTextHtml] (by decide)

/-- C8: for every non-empty available-types list, the header
`text/plain;q=` fails with `InvalidParameter` (and hence with one of the
two errors the claim allows and no other outcome): the empty parameter
value is token-parsed first, and `consumeToken` of the empty string fails
before any weight interpretation is attempted. -/
theorem acceptEmptyQ_invalidParameter (availableMediaTypes : List MediaType)
    (h : availableMediaTypes ≠ []) :
    MatchAcceptableMediaType (some "text/plain;q=".toList) availableMediaTypes =
      .error Err.InvalidParameter := by
  unfold MatchAcceptableMediaType
  rw [if_neg h]
  rfl

/-- C8 (witness): the malformed `q=` header at the concrete list
`[text/plain]`. -/
theorem acceptEmptyQ_invalidParameter_witness :
    MatchAcceptableMediaType (some "text/plain;q=".toList) [mtTextPlain] =
      .error Err.InvalidParameter :=
  acceptEmptyQ_invalidParameter [mtTextPlain] (by decide)

/-- C9: `getWeight` of the empty string reports success with weight 0, so
the header `text/plain;q=""` (empty quoted-string q value) parses without
error: the negotiation loop stores weight 0 in the `text/plain` slot, and
the call then fails with `NoAcceptableTypeFound` (explicitly not
acceptable) rather than `InvalidWeight`. -/
theorem getWeight_empty_quoted_q :
    getWeight [] = (0, true) ∧
    negotiateLoop [mtTextPlain] ("text/plain;q=\"\"".toList.length + 1)
      "text/plain;q=\"\"".toList 0 (initSlots [mtTextPlain]) =
      .ok ([⟨⟨"text".toList, "plain".toList, []⟩, [], 0, 0⟩], []) ∧
    MatchAcceptableMediaType (some "text/plain;q=\"\"".toList) [mtTextPlain] =
      .error Err.NoAcceptableTypeFound :=
  ⟨rfl, rfl, rfl⟩

/-- C10: `NewMediaType` never signals an error: when the type/subtype fails
to parse it returns the zero `MediaType`; when any parameter fails to parse
it returns the zero `MediaType`; when parsing succeeds it returns the
parsed value no matter what unconsumed text remains; in particular
`text/plain extra` yields `text/plain` with the trailing text silently
discarded, while `ParseMediaType` (Content-Type parsing) rejects the same
input with `InvalidMediaType`. -/
theorem newMediaType_total_and_trailing :
    (∀ s, consumeType s = none → NewMediaType s = default) ∧
    (∀ s t subt s1, consumeType s = some (t, subt, s1) →
      paramsLoop (s1.length + 1) s1 [] = none → NewMediaType s = default) ∧
    (∀ s t subt s1 ps rem, consumeType s = some (t, subt, s1) →
      paramsLoop (s1.length + 1) s1 [] = some (ps, rem) → NewMediaType s = ⟨t, subt, ps⟩) ∧
    NewMediaType "text/plain extra".toList = ⟨"text".toList, "plain".toList, []⟩ ∧
    ParseMediaType (some "text/plain extra".toList) = .error Err.InvalidMediaType := by
  refine ⟨?_, ?_, ?_, by decide, rfl⟩
  · intro s h
    simp only [NewMediaType, h]
  · intro s t subt s1 h h2
    simp only [NewMediaType, h, h2]
  · intro s t subt s1 ps rem h h2
    simp only [NewMediaType, h, h2]

/-- C10 (witness): `NewMediaType` of `"text"` (no slash, so the
type/subtype parse fails) is the zero `MediaType`. -/
theorem newMediaType_total_witness : NewMediaType "text".toList = default :=
  newMediaType_total_and_trailing.1 "text".toList rfl

/-- C3: the matching rule. An Accept range `r` matches an available media
type `m` iff `r`'s type is `*` or equal to `m`'s type, `r`'s subtype is `*`
or equal to `m`'s subtype, and every parameter of `r` is present in `m`
with the identical value; extra parameters of `m` are irrelevant. -/
theorem compareMediaTypes_iff (r m : MediaType) :
    compareMediaTypes r m = true ↔
      ((r.type = "*".toList ∨ r.type = m.type) ∧
       (r.subtype = "*".toList ∨ r.subtype = m.subtype) ∧
       ∀ kv ∈ r.parameters, lookupParam m.parameters kv.1 = some kv.2) := by
  unfold compareMediaTypes
  by_cases hts : (r.type = "*".toList ∨ r.type = m.type) ∧
      (r.subtype = "*".toList ∨ r.subtype = m.subtype)
  · rw [if_pos hts]
    simp only [List.all_eq_true]
    constructor
    · intro hall
      refine ⟨hts.1, hts.2, fun kv hkv => ?_⟩
      have hx := hall kv hkv
      cases hl : lookupParam m.parameters kv.1 with
      | none => rw [hl] at hx; exact absurd hx (by simp)
      | some v =>
        rw [hl] at hx
        simp only [decide_eq_true_eq] at hx
        rw [hx]
    · rintro ⟨-, -, h3⟩ kv hkv
      rw [h3 kv hkv]
      simp
  · rw [if_neg hts]
    simp only [Bool.false_eq_true, false_iff]
    rintro ⟨h1, h2, -⟩
    exact hts ⟨h1, h2⟩

/-- C3 (witness): `text/plain;charset=utf-8` matches the available type
`text/plain;charset=utf-8;boundary=x`, whose extra parameter does not
prevent the match. -/
theorem compareMediaTypes_iff_witness :
    compareMediaTypes ⟨"text".toList, "plain".toList, [("charset".toList, "utf-8".toList)]⟩
      ⟨"text".toList, "plain".toList,
        [("charset".toList, "utf-8".toList), ("boundary".toList, "x".toList)]⟩ = true :=
  (compareMediaTypes_iff _ _).mpr (by decide)

/-- C4: the precedence rule. A new range outranks the slot's stored range
iff the slot is unset (empty type or subtype), the stored type or subtype
is `*` while the new one is not, or the stored range has strictly fewer
parameters; consequently a stored range of equal specificity (same
wildcard pattern, same parameter count) is never outranked, and the
scoring loop overwrites a matching slot exactly when the new range
outranks the stored one. -/
theorem getPrecedence_iff (newRange stored : MediaType) :
    (getPrecedence newRange stored = true ↔
      (stored.type = [] ∨ stored.subtype = [] ∨
       (stored.type = "*".toList ∧ newRange.type ≠ "*".toList) ∨
       (stored.subtype = "*".toList ∧ newRange.subtype ≠ "*".toList) ∨
       stored.parameters.length < newRange.parameters.length)) ∧
    (stored.type ≠ [] → stored.subtype ≠ [] →
      (stored.type = "*".toList ↔ newRange.type = "*".toList) →
      (stored.subtype = "*".toList ↔ newRange.subtype = "*".toList) →
      stored.parameters.length = newRange.parameters.length →
      getPrecedence newRange stored = false) ∧
    (∀ ext w o avail slot, slot.mediaType = stored →
      compareMediaTypes newRange avail = true →
      getPrecedence newRange stored = true →
      updateSlot newRange ext w o avail slot = ⟨newRange, ext, w, o⟩) ∧
    (∀ ext w o avail slot, slot.mediaType = stored →
      getPrecedence newRange stored = false →
      updateSlot newRange ext w o avail slot = slot) := by
  refine ⟨?_, ?_, ?_, ?_⟩
  · unfold getPrecedence
    by_cases h1 : stored.type.length = 0 ∨ stored.subtype.length = 0
    · rw [if_pos h1]
      simp only [true_iff]
      rcases h1 with h | h
      · exact Or.inl (List.length_eq_zero.mp h)
      · exact Or.inr (Or.inl (List.length_eq_zero.mp h))
    · rw [if_neg h1]
      push_neg at h1
      by_cases h2 : (stored.type = "*".toList ∧ newRange.type ≠ "*".toList) ∨
          (stored.subtype = "*".toList ∧ newRange.subtype ≠ "*".toList) ∨
          stored.parameters.length < newRange.parameters.length
      · rw [if_pos h2]
        simp only [true_iff]
        exact Or.inr (Or.inr h2)
      · rw [if_neg h2]
        simp only [Bool.false_eq_true, false_iff]
        rintro (h | h | h)
        · exact h1.1 (by simp [h])
        · exact h1.2 (by simp [h])
        · exact h2 h
  · intro hT hS hiT hiS hlen
    have hA : ¬(stored.type.length = 0 ∨ stored.subtype.length = 0) := by
      rintro (h | h)
      · exact hT (List.length_eq_zero.mp h)
      · exact hS (List.length_eq_zero.mp h)
    have hB : ¬((stored.type = "*".toList ∧ newRange.type ≠ "*".toList) ∨
        (stored.subtype = "*".toList ∧ newRange.subtype ≠ "*".toList) ∨
        stored.parameters.length < newRange.parameters.length) := by
      rintro (⟨ha, hb⟩ | ⟨ha, hb⟩ | hlt)
      · exact hb (hiT.mp ha)
      · exact hb (hiS.mp ha)
      · omega
    unfold getPrecedence
    rw [if_neg hA, if_neg hB]
  · intro ext w o avail slot hslot hcomp hprec
    subst hslot
    unfold updateSlot
    rw [hcomp, hprec]
    rfl
  · intro ext w o avail slot hslot hprec
    subst hslot
    unfold updateSlot
    rw [hprec]
    simp

/-- C4 (witness): a stored concrete range of equal specificity
(`text/html` stored, `application/json` new, both wildcard-free with no
parameters) is not outranked. -/
theorem getPrecedence_iff_witness : getPrecedence mtApplicationJson mtTextHtml = false :=
  (getPrecedence_iff mtApplicationJson mtTextHtml).2.1 (by decide) (by decide)
    (by decide) (by decide) rfl

/-- A token character is not whitespace. -/
theorem tokenChar_not_ws (c : Char) (h : isTokenChar c = true) : isWhiteSpaceChar c = false := by
  simp only [isTokenChar, isDigitChar, isAlphaChar, isWhiteSpaceChar, Bool.or_eq_true,
    decide_eq_true_eq, decide_eq_false_iff_not] at h ⊢
  omega

/-- `toLowerChar` fixes characters that are not uppercase ASCII letters. -/
theorem toLowerChar_eq_self (c : Char) (h : isUpperAlphaChar c = false) : toLowerChar c = c := by
  unfold toLowerChar
  rw [if_neg]
  simp only [isUpperAlphaChar, decide_eq_false_iff_not] at h
  exact h

/-- `toLower` fixes strings without uppercase ASCII letters. -/
theorem toLower_eq_self (t : Str) : (∀ c ∈ t, isUpperAlphaChar c = false) → toLower t = t := by
  induction t with
  | nil => intro _; rfl
  | cons c rest ih =>
    intro h
    simp only [toLower, List.map_cons] at ih ⊢
    rw [toLowerChar_eq_self c (h c (List.mem_cons_self c rest)),
      ih (fun x hx => h x (List.mem_cons_of_mem c hx))]

/-- `takeWhile`/`dropWhile` split an all-token prefix off exactly at a
non-token continuation. -/
theorem takeWhile_token_append (t r : Str)
    (hr : ∀ c rest, r = c :: rest → isTokenChar c = false) :
    (∀ c ∈ t, isTokenChar c = true) →
    (t ++ r).takeWhile isTokenChar = t ∧ (t ++ r).dropWhile isTokenChar = r := by
  induction t with
  | nil =>
    intro _
    simp only [List.nil_append]
    cases r with
    | nil => exact ⟨rfl, rfl⟩
    | cons c rest =>
      have hc := hr c rest rfl
      constructor
      · simp [List.takeWhile_cons, hc]
      · simp [List.dropWhile_cons, hc]
  | cons c t' ih =>
    intro ht
    have hc := ht c (List.mem_cons_self c t')
    obtain ⟨ih1, ih2⟩ := ih (fun x hx => ht x (List.mem_cons_of_mem c hx))
    constructor
    · simp [List.takeWhile_cons, hc, ih1]
    · simp [List.dropWhile_cons, hc, ih2]

/-- `consumeToken` consumes exactly an all-token, lowercase prefix when the
continuation does not start with a token character. -/
theorem consumeToken_token_append (t r : Str) (ht : t ≠ [])
    (htok : ∀ c ∈ t, isTokenChar c = true ∧ isUpperAlphaChar c = false)
    (hr : ∀ c rest, r = c :: rest → isTokenChar c = false) :
    consumeToken (t ++ r) = some (t, r) := by
  obtain ⟨h1, h2⟩ := takeWhile_token_append t r hr (fun c hc => (htok c hc).1)
  simp only [consumeToken, h1, h2]
  rw [if_neg ht, toLower_eq_self t (fun c hc => (htok c hc).2)]

/-- `skipWhiteSpaces` is the identity on input starting with a token
character. -/
theorem skipWhiteSpaces_token_head (c : Char) (rest : Str) (h : isTokenChar c = true) :
    skipWhiteSpaces (c :: rest) = c :: rest := by
  simp [skipWhiteSpaces, tokenChar_not_ws c h]

/-- `consumeType` on a lowercase all-token `type "/" subtype` input
consumes everything and returns the two tokens unchanged. -/
theorem consumeType_token (t subt : Str) (ht : t ≠ []) (hsub : subt ≠ [])
    (htok : ∀ c ∈ t, isTokenChar c = true ∧ isUpperAlphaChar c = false)
    (hstok : ∀ c ∈ subt, isTokenChar c = true ∧ isUpperAlphaChar c = false)
    (hwild : ¬(t = "*".toList ∧ subt ≠ "*".toList)) :
    consumeType (t ++ '/' :: subt) = some (t, subt, []) := by
  have hskip : skipWhiteSpaces (t ++ '/' :: subt) = t ++ '/' :: subt := by
    cases t with
    | nil => exact absurd rfl ht
    | cons c t' =>
      simpa using skipWhiteSpaces_token_head c (t' ++ '/' :: subt)
        (htok c (List.mem_cons_self c t')).1
  have h1 : consumeToken (t ++ '/' :: subt) = some (t, '/' :: subt) := by
    refine consumeToken_token_append t ('/' :: subt) ht htok ?_
    intro c rest h
    injection h with hc hrest
    rw [← hc]
    decide
  have h2 : consumeToken subt = some (subt, []) := by
    have := consumeToken_token_append subt [] hsub hstok (by intro c rest h; simp at h)
    simpa using this
  simp only [consumeType, hskip, h1, h2]
  rw [if_neg hwild]
  rfl

/-- C6 (counterexample): `A/b` consists only of token characters and is a
valid media-type string, but parse-then-render yields `a/b` (the parser
lowercases the tokens), so the round trip does not reproduce the original. -/
theorem roundTrip_uppercase_counterexample :
    isTokenChar 'A' = true ∧ isTokenChar 'b' = true ∧
    MediaType.String (NewMediaType "A/b".toList) = "a/b".toList ∧
    MediaType.String (NewMediaType "A/b".toList) ≠ "A/b".toList := by
  refine ⟨by decide, by decide, by decide, by decide⟩

/-- C6 (amended): for every valid `type "/" subtype` string whose
characters are token characters none of which is an uppercase ASCII
letter, parsing with `NewMediaType` and rendering with `MediaType.String`
reproduces the original string. -/
theorem roundTrip_lower_token (t subt : Str) (ht : t ≠ []) (hsub : subt ≠ [])
    (htok : ∀ c ∈ t, isTokenChar c = true ∧ isUpperAlphaChar c = false)
    (hstok : ∀ c ∈ subt, isTokenChar c = true ∧ isUpperAlphaChar c = false)
    (hwild : ¬(t = "*".toList ∧ subt ≠ "*".toList)) :
    MediaType.String (NewMediaType (t ++ '/' :: subt)) = t ++ '/' :: subt := by
  have hct := consumeType_token t subt ht hsub htok hstok hwild
  have hnm : NewMediaType (t ++ '/' :: subt) = ⟨t, subt, []⟩ := by
    simp only [NewMediaType, hct]
    rfl
  rw [hnm]
  unfold MediaType.String
  rw [if_pos]
  · simp
  · left
    cases t with
    | nil => exact absurd rfl ht
    | cons c t' => simp

/-- If the winner-selection scan returns no index, it started with no
current pick and every scanned slot has weight 0. -/
theorem selectFrom_none_spec (ws : List ScoringSlot) :
    ∀ i best, selectFrom ws i best = none → best = none ∧ ∀ x ∈ ws, x.weight = 0 := by
  induction ws with
  | nil =>
    intro i best h
    simp only [selectFrom] at h
    exact ⟨h, by simp⟩
  | cons w rest ih =>
    intro i best h
    cases best with
    | some b =>
      obtain ⟨bi, bs⟩ := b
      simp only [selectFrom] at h
      by_cases hc : bs.weight < w.weight ∨ (w.weight = bs.weight ∧ w.order < bs.order)
      · rw [if_pos hc] at h
        exact absurd (ih _ _ h).1 (by simp)
      · rw [if_neg hc] at h
        exact absurd (ih _ _ h).1 (by simp)
    | none =>
      simp only [selectFrom] at h
      by_cases hw : 0 < w.weight
      · rw [if_pos hw] at h
        exact absurd (ih _ _ h).1 (by simp)
      · rw [if_neg hw] at h
        obtain ⟨-, hall⟩ := ih _ _ h
        refine ⟨rfl, fun x hx => ?_⟩
        rcases List.mem_cons.mp hx with hx | hx
        · subst hx; omega
        · exact hall x hx

/-- If the winner-selection scan returns an index and slot, the slot has
positive weight, is the carried pick or lives at that index among the
scanned slots, dominates every scanned positive-weight slot (strictly
greater weight, or equal weight and declaration order at most theirs), and
dominates the carried pick. -/
theorem selectFrom_some_spec (ws : List ScoringSlot) :
    ∀ i best ri rs,
      (∀ bi bs, best = some (bi, bs) → 0 < bs.weight) →
      selectFrom ws i best = some (ri, rs) →
      0 < rs.weight ∧
      (best = some (ri, rs) ∨ ∃ j, ∃ hj : j < ws.length, ri = i + j ∧ ws.get ⟨j, hj⟩ = rs) ∧
      (∀ x ∈ ws, 0 < x.weight →
        x.weight < rs.weight ∨ (x.weight = rs.weight ∧ rs.order ≤ x.order)) ∧
      (∀ bi bs, best = some (bi, bs) →
        bs.weight < rs.weight ∨ (bs.weight = rs.weight ∧ rs.order ≤ bs.order)) := by
  induction ws with
  | nil =>
    intro i best ri rs hbest h
    simp only [selectFrom] at h
    refine ⟨hbest ri rs h, Or.inl h, by simp, fun bi bs hb => ?_⟩
    rw [h] at hb
    injection hb with hb1
    injection hb1 with e1 e2
    rw [← e2]
    exact Or.inr ⟨rfl, Nat.le_refl _⟩
  | cons w rest ih =>
    intro i best ri rs hbest h
    cases best with
    | some b =>
      obtain ⟨bi, bs⟩ := b
      have hbs : 0 < bs.weight := hbest bi bs rfl
      simp only [selectFrom] at h
      by_cases hc : bs.weight < w.weight ∨ (w.weight = bs.weight ∧ w.order < bs.order)
      · rw [if_pos hc] at h
        have hw : 0 < w.weight := by omega
        obtain ⟨r1, r2, r3, r4⟩ := ih (i + 1) (some (i, w)) ri rs
          (fun bi' bs' hb => by
            injection hb with hb1
            injection hb1 with e1 e2
            rw [← e2]
            exact hw) h
        have hwvs := r4 i w rfl
        refine ⟨r1, ?_, ?_, ?_⟩
        · rcases r2 with hl | ⟨j, hj, hrij, hget⟩
          · injection hl with hl1
            injection hl1 with e1 e2
            refine Or.inr ⟨0, by simp, by omega, ?_⟩
            exact e2
          · exact Or.inr ⟨j + 1, Nat.succ_lt_succ hj, by omega, hget⟩
        · intro x hx hxw
          rcases List.mem_cons.mp hx with hx | hx
          · subst hx; exact hwvs
          · exact r3 x hx hxw
        · intro bi' bs' hb
          injection hb with hb1
          injection hb1 with e1 e2
          rw [← e2]
          omega
      · rw [if_neg hc] at h
        obtain ⟨r1, r2, r3, r4⟩ := ih (i + 1) (some (bi, bs)) ri rs
          (fun bi' bs' hb => by
            injection hb with hb1
            injection hb1 with e1 e2
            rw [← e2]
            exact hbs) h
        have hbvs := r4 bi bs rfl
        refine ⟨r1, ?_, ?_, ?_⟩
        · rcases r2 with hl | ⟨j, hj, hrij, hget⟩
          · exact Or.inl hl
          · exact Or.inr ⟨j + 1, Nat.succ_lt_succ hj, by omega, hget⟩
        · intro x hx hxw
          rcases List.mem_cons.mp hx with hx | hx
          · subst hx; omega
          · exact r3 x hx hxw
        · intro bi' bs' hb
          injection hb with hb1
          injection hb1 with e1 e2
          rw [← e2]
          exact hbvs
    | none =>
      simp only [selectFrom] at h
      by_cases hw : 0 < w.weight
      · rw [if_pos hw] at h
        obtain ⟨r1, r2, r3, r4⟩ := ih (i + 1) (some (i, w)) ri rs
          (fun bi' bs' hb => by
            injection hb with hb1
            injection hb1 with e1 e2
            rw [← e2]
            exact hw) h
        have hwvs := r4 i w rfl
        refine ⟨r1, ?_, ?_, ?_⟩
        · rcases r2 with hl | ⟨j, hj, hrij, hget⟩
          · injection hl with hl1
            injection hl1 with e1 e2
            exact Or.inr ⟨0, by simp, by omega, e2⟩
          · exact Or.inr ⟨j + 1, Nat.succ_lt_succ hj, by omega, hget⟩
        · intro x hx hxw
          rcases List.mem_cons.mp hx with hx | hx
          · subst hx; exact hwvs
          · exact r3 x hx hxw
        · intro bi' bs' hb
          cases hb
      · rw [if_neg hw] at h
        obtain ⟨r1, r2, r3, r4⟩ := ih (i + 1) none ri rs (fun bi' bs' hb => by cases hb) h
        refine ⟨r1, ?_, ?_, ?_⟩
        · rcases r2 with hl | ⟨j, hj, hrij, hget⟩
          · cases hl
          · exact Or.inr ⟨j + 1, Nat.succ_lt_succ hj, by omega, hget⟩
        · intro x hx hxw
          rcases List.mem_cons.mp hx with hx | hx
          · subst hx; omega
          · exact r3 x hx hxw
        · intro bi' bs' hb
          cases hb

/-- C2: winner selection of `MatchAcceptableMediaType`. For every Accept
header the negotiation loop parses without error (no leftover input) and
every non-empty available-types list: if every scoring slot has weight 0
the call fails with `NoAcceptableTypeFound`; otherwise it returns the
available type at an index whose slot has positive weight and the highest
weight of all positive slots, with ties broken by the lowest declaration
order stored in the slot, together with that slot's extension parameters.
Weight-0 slots are never selected. -/
theorem matchAcceptable_winner_selection (hdr : Str) (avail : List MediaType)
    (slots : List ScoringSlot)
    (hpar : negotiateLoop avail (hdr.length + 1) hdr 0 (initSlots avail) = .ok (slots, []))
    (hne : avail ≠ []) :
    ((∀ x ∈ slots, x.weight = 0) →
      MatchAcceptableMediaType (some hdr) avail = .error Err.NoAcceptableTypeFound) ∧
    ((∃ x ∈ slots, 0 < x.weight) →
      ∃ ri, ∃ hri : ri < slots.length,
        MatchAcceptableMediaType (some hdr) avail =
          .ok (avail.getD ri default, (slots.get ⟨ri, hri⟩).extensionParameters) ∧
        0 < (slots.get ⟨ri, hri⟩).weight ∧
        ∀ x ∈ slots, 0 < x.weight →
          x.weight < (slots.get ⟨ri, hri⟩).weight ∨
          (x.weight = (slots.get ⟨ri, hri⟩).weight ∧
            (slots.get ⟨ri, hri⟩).order ≤ x.order)) := by
  have hM : MatchAcceptableMediaType (some hdr) avail =
      (match selectFrom slots 0 none with
       | none => .error Err.NoAcceptableTypeFound
       | some (ri, rs) => .ok (avail.getD ri default, rs.extensionParameters)) := by
    unfold MatchAcceptableMediaType
    rw [if_neg hne]
    simp only [hpar]
  cases hsel : selectFrom slots 0 none with
  | none =>
    rw [hsel] at hM
    obtain ⟨-, hall⟩ := selectFrom_none_spec slots 0 none hsel
    constructor
    · intro _
      exact hM
    · rintro ⟨x, hx, hxw⟩
      have := hall x hx
      omega
  | some r =>
    obtain ⟨ri, rs⟩ := r
    rw [hsel] at hM
    obtain ⟨r1, r2, r3, -⟩ :=
      selectFrom_some_spec slots 0 none ri rs (fun bi bs hb => by cases hb) hsel
    rcases r2 with hl | ⟨j, hj, hrij, hget⟩
    · cases hl
    · have hrj : ri = j := by omega
      subst hrj
      constructor
      · intro hall
        have h0 := hall (slots.get ⟨ri, hj⟩) (List.get_mem slots ri hj)
        rw [hget] at h0
        exact absurd h0 (by omega)
      · intro _
        refine ⟨ri, hj, ?_, ?_, ?_⟩
        · rw [hM, hget]
        · rw [hget]; exact r1
        · intro x hx hxw
          rw [hget]
          exact r3 x hx hxw

/-- C2 (witness): header `text/html` against available `[text/html]`
selects `text/html` via the winner-selection theorem. -/
theorem matchAcceptable_winner_selection_witness :
    MatchAcceptableMediaType (some "text/html".toList) [mtTextHtml] = .ok (mtTextHtml, []) := by
  obtain ⟨ri, hri, heq, -, -⟩ :=
    (matchAcceptable_winner_selection "text/html".toList [mtTextHtml]
        [⟨⟨"text".toList, "html".toList, []⟩, [], 1000, 0⟩] rfl (by decide)).2
      ⟨⟨⟨"text".toList, "html".toList, []⟩, [], 1000, 0⟩, by decide, by decide⟩
  have hlen : ri < 1 := by simpa using hri
  have hz : ri = 0 := by omega
  subst hz
  exact heq

/-- C6 (witness): the round trip at the concrete lowercase token string
`text/plain`. -/
theorem roundTrip_lower_token_witness :
    MediaType.String (NewMediaType ("text".toList ++ '/' :: "plain".toList)) =
      "text".toList ++ '/' :: "plain".toList :=
  roundTrip_lower_token "text".toList "plain".toList (by decide) (by decide)
    (by decide) (by decide) (by decide)
